import Mathlib

/-!
Verification of the Element Hider content script (the site-keyed variant of
content.js).  The development shallowly embeds the parts of the script that
the specification talks about:

* the selector synthesizer generateSelector,
* the style applicator updateHiddenElements,
* the persisted per-site selector store together with the picker commit
  path handleMouseAction and the undo path revertLastAction,
* the picker wheel traversal (handleWheel / throttledMouseOver).

DOM elements are modelled as rose trees (DomTree); an element occurring in a
document is addressed by its child-index path from the document root element
(document.documentElement), so parentElement corresponds to List.dropLast on
the path and the root itself has the empty path.
-/

namespace ElementHider

/-- A DOM element: raw tag name (upper case, as el.tagName reports it for
HTML documents), attribute list (read by getAttribute), classList, and child
elements in document order. -/
inductive DomTree where
  | node (tagName : String) (attrs : List (String × String))
         (classList : List String) (children : List DomTree)

def DomTree.tagName : DomTree → String
  | .node t _ _ _ => t

def DomTree.attrs : DomTree → List (String × String)
  | .node _ a _ _ => a

def DomTree.classList : DomTree → List String
  | .node _ _ c _ => c

def DomTree.children : DomTree → List DomTree
  | .node _ _ _ c => c

/-- Embeds el.getAttribute(a): the attribute value, or none when absent. -/
def getAttribute (el : DomTree) (a : String) : Option String :=
  (el.attrs.find? (fun kv => kv.1 == a)).map (fun kv => kv.2)

/-- The attribute value read as a string, empty when the attribute is
absent.  JavaScript treats null and the empty string alike (both falsy)
everywhere the script inspects an attribute, so this is the faithful
observable. -/
def attrVal (el : DomTree) (a : String) : String :=
  (getAttribute el a).getD ""

/-- Embeds el.id: the id attribute value, or the empty string. -/
def idOf (el : DomTree) : String :=
  attrVal el "id"

/-- The element reached from t by following a child-index path. -/
def nodeAt : DomTree → List Nat → Option DomTree
  | t, [] => some t
  | t, i :: p =>
    match t.children.get? i with
    | some c => nodeAt c p
    | none => none

/-- The character class of the escape regex in generateSelector: hash,
semicolon, ampersand, comma, dot, plus, star, tilde, apostrophe, colon,
double quote, bang, caret, dollar, square brackets, parentheses, less-than,
equals, greater-than, pipe, slash.  Note that the colon is in the class. -/
def cssSpecialChars : List Char :=
  ['#', ';', '&', ',', '.', '+', '*', '~', Char.ofNat 39, ':',
   Char.ofNat 34, '!', '^', '$', '[', ']', '(', ')', '<', '=', '>', '|', '/']

/-- Embeds escapeCSS, i.e. str.replace of each character of the class by a
backslash followed by that character; all other characters pass through
unchanged. -/
def escapeCSS (s : String) : String :=
  String.mk (s.data.foldr
    (fun c acc => if c ∈ cssSpecialChars then Char.ofNat 92 :: c :: acc else c :: acc) [])

/-- Embeds the toLowerCase calls of the script: character-wise lowercasing
of the tag name. -/
def lowerStr (s : String) : String :=
  String.mk (s.data.map Char.toLower)

/-- The fixed priority list of stable attributes scanned by
generateSelector. -/
def stableAttrs : List String :=
  ["data-testid", "data-cy", "data-test", "name", "aria-label"]

/-- One iteration of the stable-attribute loop: the loop body returns the
attribute (with its value) exactly when el.getAttribute(attr) is truthy,
i.e. present and non-empty. -/
def stableStep (el : DomTree) (a : String) : Option (String × String) :=
  match getAttribute el a with
  | some v => if v = "" then none else some (a, v)
  | none => none

/-- The first stable attribute (with its value) that the loop accepts. -/
def firstStableMatch (el : DomTree) : Option (String × String) :=
  stableAttrs.findSome? (stableStep el)

/-- Substring test on character lists: pat occurs contiguously inside l. -/
def hasSubList (pat : List Char) : List Char → Bool
  | [] => pat.isEmpty
  | c :: rest => pat.isPrefixOf (c :: rest) || hasSubList pat rest

/-- The transient-class regex test of the script (hover, active or focus
occurring anywhere in the class name). -/
def testTransient (c : String) : Bool :=
  hasSubList "hover".data c.data || hasSubList "active".data c.data ||
    hasSubList "focus".data c.data

/-- The class-name suffix of a path segment: the classList filtered by the
transient test, each escaped and prefixed with a dot, joined. -/
def classSuffix (el : DomTree) : String :=
  String.join ((el.classList.filter (fun c => !testTransient c)).map
    (fun c => "." ++ escapeCSS c))

/-- The path segment built by one iteration of the while loop in
generateSelector for the element c, whose parent children array is
siblings and which sits at position i of that array.  The JavaScript
indexOf on sameTagSiblings uses reference equality, so for the element at
child index i it yields the number of same-tag siblings at smaller indices;
adding one makes the index 1-based. -/
def segmentOf (c : DomTree) (siblings : List DomTree) (i : Nat) : String :=
  let base := lowerStr c.tagName
  let cls := classSuffix c
  let seg := if cls = "" then base else base ++ cls
  let sameTagCount := siblings.countP (fun s => s.tagName == c.tagName)
  if 1 < sameTagCount then
    seg ++ ":nth-of-type(" ++
      toString ((siblings.take i).countP (fun s => s.tagName == c.tagName) + 1) ++ ")"
  else seg

/-- The list of path segments produced by the while loop walking up from the
element, in root-to-leaf order.  The loop accumulates with path.unshift, so
walking the address path downward from the root and consing each segment in
front of the recursive result produces exactly that root-to-leaf list.  The
document root element has no parentElement, so it contributes no segment. -/
def buildPath : DomTree → List Nat → List String
  | _, [] => []
  | t, i :: p =>
    match t.children.get? i with
    | some c => segmentOf c t.children i :: buildPath c p
    | none => []

/-- Embeds generateSelector for the element addressed by p inside the
document rooted at root.  Priority: stable attribute, then id, then the
structural path joined with the child combinator. -/
def generateSelector (root : DomTree) (p : List Nat) : String :=
  let el := (nodeAt root p).getD root
  match firstStableMatch el with
  | some av => lowerStr el.tagName ++ "[" ++ av.1 ++ "=\"" ++ av.2 ++ "\"]"
  | none =>
    if idOf el ≠ "" then "#" ++ escapeCSS (idOf el)
    else String.intercalate " > " (buildPath root p)

/-! ### Style applicator -/

/-- An element of document.head.children, reduced to the two observables the
applicator touches: its id and its text content. -/
structure Elem where
  id : String
  textContent : String
deriving DecidableEq, Repr

/-- The id of the style element owned by the extension. -/
def styleId : String := "element-hider-style"

/-- Embeds document.getElementById restricted to the head: the first element
carrying the id, in document order. -/
def getElementById (head : List Elem) (i : String) : Option Elem :=
  head.find? (fun e => e.id == i)

/-- Embeds the remove call on the element getElementById returned: deletes
the first element with the given id. -/
def removeFirstById : List Elem → String → List Elem
  | [], _ => []
  | e :: rest, i => if e.id == i then rest else e :: removeFirstById rest i

/-- The CSS text: one rule per selector, newline-joined. -/
def cssRules (selectors : List String) : String :=
  String.intercalate "\n"
    (selectors.map (fun s => s ++ " \x7b display: none !important; \x7d"))

/-- Embeds updateHiddenElements: remove the previously injected style
element (if any), then, only for a non-empty selector list, append a fresh
style element with the full rule text to the head. -/
def updateHiddenElements (selectors : List String) (head : List Elem) : List Elem :=
  let head1 :=
    match getElementById head styleId with
    | some _ => removeFirstById head styleId
    | none => head
  if selectors.isEmpty then head1
  else head1 ++ [⟨styleId, cssRules selectors⟩]

/-! ### Store, commit, revert -/

/-- The persisted selectors object in chrome.storage.local: a partial
mapping from site key to the stored selector array.  A none value means the
key is absent from the object. -/
abbrev Store := String → Option (List String)

/-- The read pattern used throughout the script (indexing with a fallback to
the empty array): the stored array, or the empty list when the key is
absent.  A stored empty array is truthy in JavaScript and is returned
as-is, which agrees with getD because both give the empty list. -/
def storeGet (st : Store) (k : String) : List String :=
  (st k).getD []

/-- The observable state the commit and revert paths touch: the persisted
store, the in-memory pickerActionHistory (a JavaScript array used as a
stack: push appends at the end, pop removes the last element), and the
document head acted on by the style applicator. -/
structure SysState where
  store : Store
  history : List String
  head : List Elem

/-- The storage path of handleMouseAction after the primary-button check,
for a click whose synthesized selector is selector on the page with site
key domain: read the domain array, and when the selector is not yet present
append it, write the updated mapping back, re-render, and push onto the
session history; otherwise change nothing. -/
def handleMouseCommit (σ : SysState) (domain selector : String) : SysState :=
  let domainSelectors := storeGet σ.store domain
  if selector ∈ domainSelectors then σ
  else
    let newDomainSelectors := domainSelectors ++ [selector]
    { store := fun k => if k = domain then some newDomainSelectors else σ.store k
      history := σ.history ++ [selector]
      head := updateHiddenElements newDomainSelectors σ.head }

/-- Embeds revertLastAction for the page with site key domain.  The writeOk
flag models whether the storage round-trip succeeds; on failure the catch
block pushes the popped selector back onto the session history and the
persisted store is never written.  On success the popped selector is
filtered out of the domain array; an emptied array causes the domain key to
be deleted from the mapping, otherwise the filtered array is stored; then
the applicator re-renders. -/
def revertLastAction (writeOk : Bool) (σ : SysState) (domain : String) : SysState :=
  match σ.history.getLast? with
  | none => σ
  | some selectorToRevert =>
    if writeOk then
      let domainSelectors := storeGet σ.store domain
      let newDomainSelectors := domainSelectors.filter (fun s => s != selectorToRevert)
      let newStore : Store :=
        if newDomainSelectors.isEmpty then
          fun k => if k = domain then none else σ.store k
        else
          fun k => if k = domain then some newDomainSelectors else σ.store k
      { store := newStore
        history := σ.history.dropLast
        head := updateHiddenElements newDomainSelectors σ.head }
    else
      { store := σ.store
        history := σ.history.dropLast ++ [selectorToRevert]
        head := σ.head }

/-! ### Picker wheel traversal -/

/-- The picker traversal state.  Element references are child-index paths
from document.documentElement (the empty path), so parentElement is
List.dropLast on a non-empty path. -/
structure PickerState where
  isActive : Bool
  highlight : Option (List Nat)
  traversal : List (List Nat)
deriving DecidableEq, Repr

/-- The path of document.documentElement. -/
def docRootPath : List Nat := []

/-- Embeds the wheel handler body: scrolling up (negative deltaY) moves the
highlight to the parent, pushing the current element, unless the parent is
absent or is the document root element; scrolling down (positive deltaY)
pops the traversal stack when non-empty and re-highlights the popped
element. -/
def handleWheel (deltaY : Int) (ps : PickerState) : PickerState :=
  match ps.highlight with
  | none => ps
  | some h =>
    if !ps.isActive then ps
    else if deltaY < 0 then
      match h with
      | [] => ps
      | _ :: _ =>
        let parent := h.dropLast
        if parent ≠ docRootPath then
          { ps with traversal := ps.traversal ++ [h], highlight := some parent }
        else ps
    else if deltaY > 0 then
      match ps.traversal.getLast? with
      | none => ps
      | some child =>
        { ps with traversal := ps.traversal.dropLast, highlight := some child }
    else ps

/-- Embeds the mouseover handler body: highlight the hover target and reset
the traversal stack. -/
def throttledMouseOver (target : List Nat) (ps : PickerState) : PickerState :=
  { ps with highlight := some target, traversal := [] }

/-! ### Helper lemmas -/

theorem stableStep_none (el : DomTree) (a : String) (h : attrVal el a = "") :
    stableStep el a = none := by
  unfold stableStep
  unfold attrVal at h
  cases hga : getAttribute el a with
  | none => rfl
  | some v =>
    rw [hga] at h
    simp at h
    simp [h]

theorem stableStep_some (el : DomTree) (a : String) (h : attrVal el a ≠ "") :
    stableStep el a = some (a, attrVal el a) := by
  unfold stableStep
  unfold attrVal at h ⊢
  cases hga : getAttribute el a with
  | none => rw [hga] at h; simp at h
  | some v =>
    rw [hga] at h
    simp at h
    simp [hga, h]

theorem firstStableMatch_none (el : DomTree)
    (h : ∀ a ∈ stableAttrs, attrVal el a = "") : firstStableMatch el = none := by
  have h0 := stableStep_none el "data-testid" (h _ (by simp [stableAttrs]))
  have h1 := stableStep_none el "data-cy" (h _ (by simp [stableAttrs]))
  have h2 := stableStep_none el "data-test" (h _ (by simp [stableAttrs]))
  have h3 := stableStep_none el "name" (h _ (by simp [stableAttrs]))
  have h4 := stableStep_none el "aria-label" (h _ (by simp [stableAttrs]))
  simp [firstStableMatch, stableAttrs, List.findSome?_cons, h0, h1, h2, h3, h4]

theorem commit_mem_eq (σ : SysState) (d s : String) (h : s ∈ storeGet σ.store d) :
    handleMouseCommit σ d s = σ := by
  simp [handleMouseCommit, h]

theorem commit_not_mem_eq (σ : SysState) (d s : String) (h : s ∉ storeGet σ.store d) :
    handleMouseCommit σ d s =
      { store := fun k => if k = d then some (storeGet σ.store d ++ [s]) else σ.store k
        history := σ.history ++ [s]
        head := updateHiddenElements (storeGet σ.store d ++ [s]) σ.head } := by
  simp [handleMouseCommit, h]

theorem filter_ne_of_not_mem (s : String) (l : List String) (h : s ∉ l) :
    l.filter (fun x => x != s) = l := by
  apply List.filter_eq_self.mpr
  intro a ha
  simp [bne_iff_ne]
  rintro rfl
  exact h ha

theorem removeFirst_eq_filter (head : List Elem) (i : String)
    (h : (head.filter (fun e => e.id == i)).length ≤ 1) :
    removeFirstById head i = head.filter (fun e => e.id != i) := by
  induction head with
  | nil => rfl
  | cons e rest ih =>
    by_cases hid : (e.id == i) = true
    · have hrest : rest.filter (fun x => x.id == i) = [] := by
        rw [List.filter_cons] at h
        simp only [hid, if_true, List.length_cons] at h
        have h0 : (rest.filter (fun x => x.id == i)).length = 0 := by omega
        exact List.length_eq_zero.mp h0
      have hall : ∀ x ∈ rest, (x.id != i) = true := by
        intro x hx
        have := List.filter_eq_nil_iff.mp hrest x hx
        simp at this ⊢
        exact this
      have heq : e.id = i := by simpa using hid
      simp only [removeFirstById, List.filter_cons]
      simp [hid, heq, List.filter_eq_self.mpr hall]
    · simp only [removeFirstById, List.filter_cons]
      rw [List.filter_cons] at h
      simp only [hid, if_false] at h ⊢
      simp at hid
      simp [hid]
      exact ih (by simpa using h)

theorem updateHidden_head1 (head : List Elem)
    (h : (head.filter (fun e => e.id == styleId)).length ≤ 1) :
    (match getElementById head styleId with
      | some _ => removeFirstById head styleId
      | none => head) = head.filter (fun e => e.id != styleId) := by
  cases hf : getElementById head styleId with
  | none =>
    have hall : ∀ x ∈ head, (x.id != styleId) = true := by
      intro x hx
      have := List.find?_eq_none.mp hf x hx
      simp at this ⊢
      exact this
    simp [List.filter_eq_self.mpr hall]
  | some e => simp [removeFirst_eq_filter head styleId h]

/-! ### Claim theorems -/

/-- C8: Style Applicator contract.  For every invocation, the previously
injected style element is removed; with an empty selector set nothing is
injected, and with a non-empty set a fresh style element is appended to the
head whose content is exactly one rule per selector, newline-joined.  The
hypothesis states the module invariant that the head holds at most one
extension-owned style element (the script itself never creates a second
one, and getElementById can only return one). -/
theorem style_applicator_contract (selectors : List String) (head : List Elem)
    (h : (head.filter (fun e => e.id == styleId)).length ≤ 1) :
    (selectors = [] →
      updateHiddenElements selectors head = head.filter (fun e => e.id != styleId)) ∧
    (selectors ≠ [] →
      updateHiddenElements selectors head =
        head.filter (fun e => e.id != styleId) ++
          [⟨styleId, String.intercalate "\n"
            (selectors.map (fun s => s ++ " \x7b display: none !important; \x7d"))⟩]) := by
  have h1 := updateHidden_head1 head h
  constructor
  · intro he
    subst he
    simp [updateHiddenElements, h1]
  · intro hne
    simp [updateHiddenElements, h1, cssRules, List.isEmpty_iff, hne]

def demoHead : List Elem := [⟨"meta", "m"⟩, ⟨styleId, "old"⟩]

theorem style_applicator_contract_witness :
    (updateHiddenElements [] demoHead = demoHead.filter (fun e => e.id != styleId)) ∧
    (updateHiddenElements ["#x"] demoHead =
      demoHead.filter (fun e => e.id != styleId) ++
        [⟨styleId, String.intercalate "\n"
          (["#x"].map (fun s => s ++ " \x7b display: none !important; \x7d"))⟩]) :=
  ⟨(style_applicator_contract [] demoHead (by decide)).1 rfl,
   (style_applicator_contract ["#x"] demoHead (by decide)).2 (by decide)⟩

/-- C1: Commit postcondition.  If the synthesized selector is new for the
active site key, the commit appends it to the stored selector set, writes
that set to the store, re-invokes the style applicator with it, and pushes
the selector onto the session history; if it is already present, the whole
state (store, applied styles, session history) is unchanged.  Committing
the same selector twice is idempotent: the second commit changes nothing. -/
theorem commit_postcondition (σ : SysState) (d s : String) :
    (s ∉ storeGet σ.store d →
      (handleMouseCommit σ d s).store d = some (storeGet σ.store d ++ [s]) ∧
      (handleMouseCommit σ d s).history = σ.history ++ [s] ∧
      (handleMouseCommit σ d s).head =
        updateHiddenElements (storeGet σ.store d ++ [s]) σ.head) ∧
    (s ∈ storeGet σ.store d → handleMouseCommit σ d s = σ) ∧
    handleMouseCommit (handleMouseCommit σ d s) d s = handleMouseCommit σ d s := by
  by_cases h : s ∈ storeGet σ.store d
  · exact ⟨fun hn => absurd h hn, fun _ => commit_mem_eq σ d s h,
      by rw [commit_mem_eq σ d s h, commit_mem_eq σ d s h]⟩
  · refine ⟨fun _ => ?_, fun hm => absurd hm h, ?_⟩
    · rw [commit_not_mem_eq σ d s h]
      simp
    · have hmem : s ∈ storeGet (handleMouseCommit σ d s).store d := by
        rw [commit_not_mem_eq σ d s h]
        simp [storeGet]
      exact commit_mem_eq _ d s hmem

def emptyState : SysState := ⟨fun _ => none, [], []⟩

theorem commit_postcondition_witness :
    ((handleMouseCommit emptyState "a.com" "#x").store "a.com" = some ["#x"]) ∧
    ((handleMouseCommit emptyState "a.com" "#x").history = ["#x"]) ∧
    (handleMouseCommit (handleMouseCommit emptyState "a.com" "#x") "a.com" "#x" =
      handleMouseCommit emptyState "a.com" "#x") := by
  have h := commit_postcondition emptyState "a.com" "#x"
  have h1 := h.1 (by simp [emptyState, storeGet])
  refine ⟨?_, ?_, h.2.2⟩
  · have := h1.1
    simpa [emptyState, storeGet] using this
  · have := h1.2.1
    simpa [emptyState] using this

/-- C10: Site-key isolation.  A commit for site key d and a revert for site
key d (successful or failed) both leave the store entry of every other site
key untouched. -/
theorem site_key_isolation (σ : SysState) (d s k : String) (hk : k ≠ d) :
    ((handleMouseCommit σ d s).store k = σ.store k) ∧
    (∀ w, (revertLastAction w σ d).store k = σ.store k) := by
  constructor
  · by_cases h : s ∈ storeGet σ.store d
    · rw [commit_mem_eq σ d s h]
    · rw [commit_not_mem_eq σ d s h]
      simp [hk]
  · intro w
    cases hl : σ.history.getLast? with
    | none => simp [revertLastAction, hl]
    | some sel =>
      cases w with
      | false => simp [revertLastAction, hl]
      | true =>
        by_cases he :
          ((storeGet σ.store d).filter (fun x => x != sel)).isEmpty = true
        · simp [revertLastAction, hl, he, hk]
        · simp [revertLastAction, hl, he, hk]

def demoState : SysState :=
  ⟨fun k => if k = "a.com" then some ["#x"] else none, ["#x"], []⟩

theorem site_key_isolation_witness :
    ((handleMouseCommit demoState "a.com" ".y").store "b.com" = demoState.store "b.com") ∧
    ((revertLastAction true demoState "a.com").store "b.com" = demoState.store "b.com") := by
  have h := site_key_isolation demoState "a.com" ".y" "b.com" (by decide)
  exact ⟨h.1, h.2 true⟩

/-- C3: Revert failure atomicity.  When the session history is non-empty and
the storage write fails, the popped selector is pushed back so the session
history equals its pre-revert value, and neither the persisted store nor
the applied styles change. -/
theorem revert_failure_atomicity (σ : SysState) (d : String) (hne : σ.history ≠ []) :
    ((revertLastAction false σ d).history = σ.history) ∧
    ((revertLastAction false σ d).store = σ.store) ∧
    ((revertLastAction false σ d).head = σ.head) := by
  have hl : σ.history.getLast? = some (σ.history.getLast hne) :=
    List.getLast?_eq_getLast σ.history hne
  refine ⟨?_, by simp [revertLastAction, hl], by simp [revertLastAction, hl]⟩
  simp [revertLastAction, hl]
  exact List.dropLast_append_getLast? _ (by rw [hl]; exact rfl)

def failState : SysState := ⟨fun _ => some ["#x"], ["#x"], []⟩

theorem revert_failure_atomicity_witness :
    ((revertLastAction false failState "a.com").history = failState.history) ∧
    ((revertLastAction false failState "a.com").store = failState.store) ∧
    ((revertLastAction false failState "a.com").head = failState.head) :=
  revert_failure_atomicity failState "a.com" (by decide)

theorem revert_success_eq (σ : SysState) (d s : String)
    (h : σ.history.getLast? = some s) :
    revertLastAction true σ d =
      { store :=
          if ((storeGet σ.store d).filter (fun x => x != s)).isEmpty then
            (fun k => if k = d then none else σ.store k)
          else
            (fun k =>
              if k = d then some ((storeGet σ.store d).filter (fun x => x != s))
              else σ.store k)
        history := σ.history.dropLast
        head := updateHiddenElements ((storeGet σ.store d).filter (fun x => x != s)) σ.head } := by
  unfold revertLastAction
  rw [h]
  rfl

theorem revert_success_store_of_empty (σ : SysState) (d s : String)
    (h : σ.history.getLast? = some s)
    (he : (storeGet σ.store d).filter (fun x => x != s) = []) :
    (revertLastAction true σ d).store = fun k => if k = d then none else σ.store k := by
  rw [revert_success_eq σ d s h]
  simp [he]

theorem revert_success_store_of_ne (σ : SysState) (d s : String)
    (h : σ.history.getLast? = some s)
    (he : (storeGet σ.store d).filter (fun x => x != s) ≠ []) :
    (revertLastAction true σ d).store =
      fun k =>
        if k = d then some ((storeGet σ.store d).filter (fun x => x != s))
        else σ.store k := by
  rw [revert_success_eq σ d s h]
  have hnall : ¬ ∀ a ∈ storeGet σ.store d, a = s := by
    intro hall
    apply he
    apply List.filter_eq_nil_iff.mpr
    intro a ha
    simp [hall a ha]
  simp [List.isEmpty_iff, he, hnall]

theorem revert_success_storeGet (σ : SysState) (d s : String)
    (h : σ.history.getLast? = some s) :
    storeGet (revertLastAction true σ d).store d =
      (storeGet σ.store d).filter (fun x => x != s) := by
  by_cases he : (storeGet σ.store d).filter (fun x => x != s) = []
  · rw [revert_success_store_of_empty σ d s h he]
    have he' : List.filter (fun x => x != s) ((σ.store d).getD []) = [] := he
    simp [storeGet, he']
  · rw [revert_success_store_of_ne σ d s h he]
    simp [storeGet]

theorem revert_success_store_at (σ : SysState) (d s : String)
    (h : σ.history.getLast? = some s) :
    (revertLastAction true σ d).store d =
      (if (storeGet σ.store d).filter (fun x => x != s) = [] then none
       else some ((storeGet σ.store d).filter (fun x => x != s))) := by
  by_cases he : (storeGet σ.store d).filter (fun x => x != s) = []
  · rw [revert_success_store_of_empty σ d s h he]
    simp [he]
  · rw [revert_success_store_of_ne σ d s h he]
    simp [he]

/-- C2: Revert round-trip.  Committing a selector that is new for the site
key and then immediately reverting (with the storage write succeeding)
restores the selector set stored for that site key to its pre-commit value;
and a revert issued while the session history is empty is a no-op on the
whole state. -/
theorem commit_revert_roundtrip (σ : SysState) (d s : String) :
    (s ∉ storeGet σ.store d →
      storeGet (revertLastAction true (handleMouseCommit σ d s) d).store d =
        storeGet σ.store d) ∧
    (σ.history = [] → ∀ w, revertLastAction w σ d = σ) := by
  constructor
  · intro h
    have hist : (handleMouseCommit σ d s).history.getLast? = some s := by
      rw [commit_not_mem_eq σ d s h]
      simp
    have hsg : storeGet (handleMouseCommit σ d s).store d = storeGet σ.store d ++ [s] := by
      rw [commit_not_mem_eq σ d s h]
      simp [storeGet]
    rw [revert_success_storeGet _ d s hist, hsg, List.filter_append,
      filter_ne_of_not_mem s _ h]
    simp
  · intro hh w
    simp [revertLastAction, hh]

theorem commit_revert_roundtrip_witness :
    (storeGet
      (revertLastAction true (handleMouseCommit demoState "a.com" ".y") "a.com").store
      "a.com" = storeGet demoState.store "a.com") ∧
    (revertLastAction true emptyState "a.com" = emptyState) := by
  have h := commit_revert_roundtrip demoState "a.com" ".y"
  refine ⟨h.1 (by decide), ?_⟩
  exact (commit_revert_roundtrip emptyState "a.com" ".y").2 rfl true

/-- C4: Empty-set normalization on revert.  A successful revert removes the
popped selector from the selector set stored for the current site key; when
the filtered set is empty the site key is deleted from the store (the entry
becomes absent, not an empty array), otherwise the key maps to the filtered
set. -/
theorem revert_empty_normalization (σ : SysState) (d s : String)
    (h : σ.history.getLast? = some s) :
    (s ∉ storeGet (revertLastAction true σ d).store d) ∧
    ((storeGet σ.store d).filter (fun x => x != s) = [] →
      (revertLastAction true σ d).store d = none) ∧
    ((storeGet σ.store d).filter (fun x => x != s) ≠ [] →
      (revertLastAction true σ d).store d =
        some ((storeGet σ.store d).filter (fun x => x != s))) := by
  refine ⟨?_, fun he => ?_, fun he => ?_⟩
  · rw [revert_success_storeGet σ d s h]
    simp [List.mem_filter]
  · rw [revert_success_store_at σ d s h]
    simp [he]
  · rw [revert_success_store_at σ d s h]
    simp [he]

def revDemoKeep : SysState :=
  ⟨fun k => if k = "a.com" then some ["#x", ".y"] else none, [".y"], []⟩

def revDemoDrop : SysState :=
  ⟨fun k => if k = "a.com" then some [".y"] else none, [".y"], []⟩

theorem revert_empty_normalization_witness :
    ((revertLastAction true revDemoKeep "a.com").store "a.com" = some ["#x"]) ∧
    ((revertLastAction true revDemoDrop "a.com").store "a.com" = none) := by
  constructor
  · have h := (revert_empty_normalization revDemoKeep "a.com" ".y" rfl).2.2 (by decide)
    rw [show (storeGet revDemoKeep.store "a.com").filter (fun x => x != ".y") = ["#x"]
      by decide] at h
    exact h
  · exact (revert_empty_normalization revDemoDrop "a.com" ".y" rfl).2.1 (by decide)

/-- C9: Traversal stack behavior.  With the picker active and an element
highlighted: an upward wheel step pushes the highlighted element and moves
the highlight to its parent, unless the parent is the document root, in
which case nothing changes; a downward wheel step with a non-empty
traversal stack pops it and re-highlights the popped element; hovering a
new element resets the traversal stack to empty, so a downward wheel step
right after a hover changes nothing. -/
theorem traversal_stack_behavior (ps : PickerState) (d : Int) (t : List Nat) :
    (∀ h, ps.isActive = true → ps.highlight = some h → h ≠ [] →
      h.dropLast ≠ [] → d < 0 →
      handleWheel d ps =
        { ps with traversal := ps.traversal ++ [h], highlight := some h.dropLast }) ∧
    (∀ h, ps.isActive = true → ps.highlight = some h → h ≠ [] →
      h.dropLast = [] → d < 0 → handleWheel d ps = ps) ∧
    (∀ h c, ps.isActive = true → ps.highlight = some h → d > 0 →
      ps.traversal.getLast? = some c →
      handleWheel d ps =
        { ps with traversal := ps.traversal.dropLast, highlight := some c }) ∧
    ((throttledMouseOver t ps).traversal = [] ∧
      (throttledMouseOver t ps).highlight = some t) ∧
    (ps.isActive = true → d > 0 →
      handleWheel d (throttledMouseOver t ps) = throttledMouseOver t ps) := by
  refine ⟨?_, ?_, ?_, ⟨rfl, rfl⟩, ?_⟩
  · intro h hact hh hne hpar hd
    cases h with
    | nil => exact absurd rfl hne
    | cons a rest => simp [handleWheel, hh, hact, hd, docRootPath, hpar]
  · intro h hact hh hne hpar hd
    cases h with
    | nil => exact absurd rfl hne
    | cons a rest => simp [handleWheel, hh, hact, hd, docRootPath, hpar]
  · intro h c hact hh hd hc
    have hd' : ¬ d < 0 := by omega
    simp [handleWheel, hh, hact, hd, hd', hc]
  · intro hact hd
    have hd' : ¬ d < 0 := by omega
    simp [handleWheel, throttledMouseOver, hact, hd, hd']

theorem traversal_stack_behavior_witness :
    (handleWheel (-1) ⟨true, some [0, 0], []⟩ =
      { isActive := true, highlight := some [0], traversal := [[0, 0]] }) ∧
    (handleWheel 1 ⟨true, some [0], [[0, 0]]⟩ =
      { isActive := true, highlight := some [0, 0], traversal := [] }) ∧
    (handleWheel 1 (throttledMouseOver [2] ⟨true, some [0], [[0, 0]]⟩) =
      throttledMouseOver [2] ⟨true, some [0], [[0, 0]]⟩) := by
  have h1 := (traversal_stack_behavior ⟨true, some [0, 0], []⟩ (-1) [2]).1 [0, 0]
    rfl rfl (by decide) (by decide) (by decide)
  have h3 := (traversal_stack_behavior ⟨true, some [0], [[0, 0]]⟩ 1 [2]).2.2.1 [0] [0, 0]
    rfl rfl (by decide) rfl
  have h5 := (traversal_stack_behavior ⟨true, some [0], [[0, 0]]⟩ 1 [2]).2.2.2.2
    rfl (by decide)
  exact ⟨by simpa using h1, by simpa using h3, h5⟩

/-- C5: Stable-attribute priority.  When the element carries at least one
stable attribute with a non-empty value, the synthesizer returns the
attribute selector built from the first matching attribute in the fixed
priority order, regardless of identifier or class presence; the conclusion
exhibits the priority split of the attribute list. -/
theorem stable_attr_priority (root el : DomTree) (p : List Nat)
    (hel : nodeAt root p = some el)
    (hex : ∃ a ∈ stableAttrs, attrVal el a ≠ "") :
    ∃ pre a post, stableAttrs = pre ++ a :: post ∧
      (∀ b ∈ pre, attrVal el b = "") ∧ attrVal el a ≠ "" ∧
      generateSelector root p =
        lowerStr el.tagName ++ "[" ++ a ++ "=\"" ++ attrVal el a ++ "\"]" := by
  have gsel : ∀ a, firstStableMatch el = some (a, attrVal el a) →
      generateSelector root p =
        lowerStr el.tagName ++ "[" ++ a ++ "=\"" ++ attrVal el a ++ "\"]" := by
    intro a hf
    simp [generateSelector, hel, hf]
  by_cases h0 : attrVal el "data-testid" = ""
  · by_cases h1 : attrVal el "data-cy" = ""
    · by_cases h2 : attrVal el "data-test" = ""
      · by_cases h3 : attrVal el "name" = ""
        · by_cases h4 : attrVal el "aria-label" = ""
          · exfalso
            obtain ⟨a, ham, hne⟩ := hex
            simp [stableAttrs] at ham
            rcases ham with rfl | rfl | rfl | rfl | rfl <;> simp_all
          · refine ⟨["data-testid", "data-cy", "data-test", "name"], "aria-label", [],
              rfl, ?_, h4, ?_⟩
            · intro b hb
              simp at hb
              rcases hb with rfl | rfl | rfl | rfl <;> assumption
            · apply gsel
              simp [firstStableMatch, stableAttrs, List.findSome?_cons,
                stableStep_none el _ h0, stableStep_none el _ h1, stableStep_none el _ h2,
                stableStep_none el _ h3, stableStep_some el _ h4]
        · refine ⟨["data-testid", "data-cy", "data-test"], "name", ["aria-label"],
            rfl, ?_, h3, ?_⟩
          · intro b hb
            simp at hb
            rcases hb with rfl | rfl | rfl <;> assumption
          · apply gsel
            simp [firstStableMatch, stableAttrs, List.findSome?_cons,
              stableStep_none el _ h0, stableStep_none el _ h1, stableStep_none el _ h2,
              stableStep_some el _ h3]
      · refine ⟨["data-testid", "data-cy"], "data-test", ["name", "aria-label"],
          rfl, ?_, h2, ?_⟩
        · intro b hb
          simp at hb
          rcases hb with rfl | rfl <;> assumption
        · apply gsel
          simp [firstStableMatch, stableAttrs, List.findSome?_cons,
            stableStep_none el _ h0, stableStep_none el _ h1, stableStep_some el _ h2]
    · refine ⟨["data-testid"], "data-cy", ["data-test", "name", "aria-label"],
        rfl, ?_, h1, ?_⟩
      · intro b hb
        simp at hb
        subst hb
        exact h0
      · apply gsel
        simp [firstStableMatch, stableAttrs, List.findSome?_cons,
          stableStep_none el _ h0, stableStep_some el _ h1]
  · refine ⟨[], "data-testid", ["data-cy", "data-test", "name", "aria-label"],
      rfl, by simp, h0, ?_⟩
    apply gsel
    simp [firstStableMatch, stableAttrs, List.findSome?_cons, stableStep_some el _ h0]

def elBtn : DomTree := .node "BUTTON" [("data-cy", "v"), ("id", "z")] ["c"] []

theorem stable_attr_priority_witness :
    (∃ pre a post, stableAttrs = pre ++ a :: post ∧
      (∀ b ∈ pre, attrVal elBtn b = "") ∧ attrVal elBtn a ≠ "" ∧
      generateSelector elBtn [] =
        lowerStr elBtn.tagName ++ "[" ++ a ++ "=\"" ++ attrVal elBtn a ++ "\"]") ∧
    generateSelector elBtn [] = "button[data-cy=\"v\"]" :=
  ⟨stable_attr_priority elBtn elBtn [] rfl (by decide), by decide⟩

/-- The punctuation set exactly as the claim lists it.  It does not contain
the colon; this definition follows the claim wording, for comparison with
the code-side cssSpecialChars. -/
def claimedPunct : List Char :=
  ['#', ';', '&', ',', '.', '+', '*', '~', Char.ofNat 39, Char.ofNat 34,
   '!', '^', '$', '[', ']', '(', ')', '<', '=', '>', '|', '/']

/-- The escape function as the claim words it: every occurrence of a
character from the claimed punctuation set is prefixed with a backslash and
all other characters are unchanged. -/
def claimedEscape (s : String) : String :=
  String.mk (s.data.foldr
    (fun c acc => if c ∈ claimedPunct then Char.ofNat 92 :: c :: acc else c :: acc) [])

def elColonId : DomTree := .node "DIV" [("id", "a:b")] [] []

/-- C6 counterexample: the element with id a:b carries no stable attribute,
and the code escapes the colon in the id, so the synthesizer output differs
from the hash sign followed by the id escaped over the punctuation set the
claim lists, which omits the colon. -/
theorem id_escaping_counterexample :
    generateSelector elColonId [] = "#a\\:b" ∧
    "#" ++ claimedEscape "a:b" = "#a:b" ∧
    generateSelector elColonId [] ≠ "#" ++ claimedEscape "a:b" := by decide

/-- C6 (amended): for every element with no stable attribute and a
non-empty identifier, the synthesizer returns the hash sign followed by the
identifier in which every occurrence of a character from the claimed
punctuation set extended with the colon is prefixed with a backslash, and
all other characters are unchanged. -/
theorem id_escaping_amended (root el : DomTree) (p : List Nat)
    (hel : nodeAt root p = some el)
    (hattr : ∀ a ∈ stableAttrs, attrVal el a = "")
    (hid : idOf el ≠ "") :
    generateSelector root p =
      "#" ++ String.mk ((idOf el).data.foldr
        (fun c acc => if c ∈ ':' :: claimedPunct then Char.ofNat 92 :: c :: acc
                      else c :: acc) []) := by
  have hmem : ∀ c : Char, c ∈ cssSpecialChars ↔ c ∈ ':' :: claimedPunct := by
    intro c
    exact List.Perm.mem_iff (by decide)
  have hf : (fun (c : Char) (acc : List Char) =>
      if c ∈ cssSpecialChars then Char.ofNat 92 :: c :: acc else c :: acc) =
      (fun c acc => if c ∈ ':' :: claimedPunct then Char.ofNat 92 :: c :: acc
                    else c :: acc) := by
    funext c acc
    exact if_congr (hmem c) rfl rfl
  have hesc : escapeCSS (idOf el) =
      String.mk ((idOf el).data.foldr
        (fun c acc => if c ∈ ':' :: claimedPunct then Char.ofNat 92 :: c :: acc
                      else c :: acc) []) := by
    unfold escapeCSS
    rw [hf]
  have hfsm := firstStableMatch_none el hattr
  simp only [generateSelector, hel, Option.getD_some, hfsm]
  rw [if_pos hid, hesc]

theorem id_escaping_amended_witness :
    generateSelector elColonId [] =
      "#" ++ String.mk ((idOf elColonId).data.foldr
        (fun c acc => if c ∈ ':' :: claimedPunct then Char.ofNat 92 :: c :: acc
                      else c :: acc) []) :=
  id_escaping_amended elColonId elColonId [] rfl (by decide) (by decide)

/-- The path segment as the claim words it: the lower-cased tag name, plus
each class name not containing the substrings hover, active or focus,
escaped and appended with a leading dot, plus a 1-based nth-of-type suffix
exactly when more than one sibling under the same parent shares the tag
name. -/
def claimSegment (c : DomTree) (siblings : List DomTree) (i : Nat) : String :=
  lowerStr c.tagName ++
    String.join ((c.classList.filter (fun cl => !testTransient cl)).map
      (fun cl => "." ++ escapeCSS cl)) ++
    (if 1 < siblings.countP (fun s => s.tagName == c.tagName) then
      ":nth-of-type(" ++
        toString ((siblings.take i).countP (fun s => s.tagName == c.tagName) + 1) ++ ")"
    else "")

/-- The claimed walk: one segment for the element and each ancestor strictly
below the document root, in root-to-leaf order. -/
def claimSegments : DomTree → List Nat → List String
  | _, [] => []
  | t, i :: p =>
    match t.children.get? i with
    | some c => claimSegment c t.children i :: claimSegments c p
    | none => []

theorem segmentOf_eq_claim (c : DomTree) (sib : List DomTree) (i : Nat) :
    segmentOf c sib i = claimSegment c sib i := by
  unfold segmentOf claimSegment
  simp only [classSuffix]
  by_cases hc : String.join ((c.classList.filter (fun cl => !testTransient cl)).map
      (fun cl => "." ++ escapeCSS cl)) = ""
  · by_cases hn : 1 < sib.countP (fun s => s.tagName == c.tagName)
    · simp [hc, hn, String.append_assoc]
    · simp [hc, hn]
  · by_cases hn : 1 < sib.countP (fun s => s.tagName == c.tagName)
    · simp [hc, hn, String.append_assoc]
    · simp [hc, hn]

theorem buildPath_eq_claim : ∀ (t : DomTree) (p : List Nat),
    buildPath t p = claimSegments t p
  | _, [] => rfl
  | t, i :: p => by
    unfold buildPath claimSegments
    cases h : t.children.get? i with
    | none => rfl
    | some c =>
      show segmentOf c t.children i :: buildPath c p =
        claimSegment c t.children i :: claimSegments c p
      rw [segmentOf_eq_claim, buildPath_eq_claim c p]

/-- C7: Path fallback.  For an element with no stable attribute and no
identifier, the synthesizer output is the root-to-leaf join, with the child
combinator, of the claimed segments: lower-cased tag name, the filtered and
escaped class names with leading dots, and the 1-based nth-of-type index
whenever more than one same-tag sibling exists under the same parent. -/
theorem path_fallback (root el : DomTree) (p : List Nat)
    (hel : nodeAt root p = some el)
    (hattr : ∀ a ∈ stableAttrs, attrVal el a = "")
    (hid : idOf el = "") :
    generateSelector root p = String.intercalate " > " (claimSegments root p) := by
  have hfsm := firstStableMatch_none el hattr
  simp only [generateSelector, hel, Option.getD_some, hfsm]
  rw [if_neg (by simp [hid]), buildPath_eq_claim]

def tinyDoc : DomTree :=
  .node "HTML" [] []
    [.node "BODY" [] []
      [.node "DIV" [] ["foo"] [], .node "DIV" [] [] [], .node "SPAN" [] [] []]]

theorem path_fallback_witness :
    (generateSelector tinyDoc [0, 0] =
      String.intercalate " > " (claimSegments tinyDoc [0, 0])) ∧
    generateSelector tinyDoc [0, 0] = "body > div.foo:nth-of-type(1)" :=
  ⟨path_fallback tinyDoc (DomTree.node "DIV" [] ["foo"] []) [0, 0] rfl
      (by decide) (by decide),
    by decide⟩

end ElementHider
